import Mathlib

/-!
Verification development for the Derenpy bridge script
(`src/scripts/decompile.py`).  The core under study is the function
`read_ast_from_file`, which parses the RPYC archive container, extracts the
slot-1 payload, decompresses it and deserializes the pickled AST.

Bytes are modelled as `List Nat` (each element a byte value `< 256`; none of
the parsing code depends on the bound).  Python slice semantics
(`raw[a : b]`, which clamps out-of-range indices and never fails) is modelled
by `pySlice`.  `struct.unpack("III", buf)` uses *native* byte order and
standard 4-byte unsigned fields (total size 12, exact-length check), so the
decoder is parameterised by a `ByteOrder` standing for the platform's native
order.
-/

set_option autoImplicit false

namespace Derenpy

/-- Native byte order of the platform the script runs on.  The format string
`"III"` in `struct.unpack("III", ...)` selects native order, so decoding is
parameterised by it. -/
inductive ByteOrder where
  | little
  | big
deriving DecidableEq

/-- Error outcomes of the pipeline, named after the exceptions the Python
code actually raises.  The spec's taxonomy maps onto them as follows:
`structError` is `struct.error` (spec: `TruncatedError`), `valueError` is
`ValueError` (spec: `FormatError`), `decompressionError` is `zlib.error`
(spec: `DecompressionError`); `unsupportedTypeError` and `malformedStream`
belong to the safe unpickler (spec: `UnsupportedTypeError`,
`MalformedStreamError`). -/
inductive RpycError where
  | structError
  | valueError (msg : String)
  | decompressionError
  | unsupportedTypeError (ty : String)
  | malformedStream
deriving DecidableEq

/-- Python slice `bs[a : b]` for `0 ≤ a ≤ b`: clamps to the buffer and never
fails. -/
def pySlice (bs : List Nat) (a b : Nat) : List Nat :=
  (bs.drop a).take (b - a)

/-- Read an unsigned 32-bit integer from four byte values in the given byte
order. -/
def readU32 (e : ByteOrder) (b0 b1 b2 b3 : Nat) : Nat :=
  match e with
  | .little => b0 + 256 * b1 + 65536 * b2 + 16777216 * b3
  | .big => b3 + 256 * b2 + 65536 * b1 + 16777216 * b0

/-- Encode `n < 2^32` as four bytes in the given byte order. -/
def encodeU32 (e : ByteOrder) (n : Nat) : List Nat :=
  match e with
  | .little => [n % 256, n / 256 % 256, n / 65536 % 256, n / 16777216 % 256]
  | .big => [n / 16777216 % 256, n / 65536 % 256, n / 256 % 256, n % 256]

/-- Model of `struct.unpack("III", bs)`: requires the buffer to be exactly 12 bytes
(`struct.error` otherwise, modelled as `structError`) and decodes three
native-order unsigned 32-bit integers. -/
def unpackIII (e : ByteOrder) (bs : List Nat) : Except RpycError (Nat × Nat × Nat) :=
  if bs.length = 12 then
    .ok (readU32 e (bs.getD 0 0) (bs.getD 1 0) (bs.getD 2 0) (bs.getD 3 0),
         readU32 e (bs.getD 4 0) (bs.getD 5 0) (bs.getD 6 0) (bs.getD 7 0),
         readU32 e (bs.getD 8 0) (bs.getD 9 0) (bs.getD 10 0) (bs.getD 11 0))
  else
    .error .structError

/-- The 12-byte encoding of one index record `(slot, start, length)`. -/
def encRec (e : ByteOrder) (r : Nat × Nat × Nat) : List Nat :=
  encodeU32 e r.1 ++ encodeU32 e r.2.1 ++ encodeU32 e r.2.2

/-- The 10-byte magic marker `b"RENPY RPC2"`. -/
def MAGIC : List Nat := [82, 69, 78, 80, 89, 32, 82, 80, 67, 50]

/-- Iteration budget of the record-scanning loop:
`for expected_slot in range(1, 0xFFFFFFFF)` runs at most `0xFFFFFFFE`
iterations. -/
def SCAN_FUEL : Nat := 4294967294

/-- The record-scanning loop of `read_ast_from_file` (decompile.py lines
36-47).  Each iteration unpacks the 12-byte record at `position`
(`struct.error` if fewer than 12 bytes remain), stops on a zero slot,
otherwise records `raw[start : start+length]` under the slot key
(`chunks[slot] = ...`; the Python dict is modelled as an association list
whose most recent insertion is found first by `List.lookup`).  When the
`range` bound is exhausted the Python loop falls through with the chunks
collected so far. -/
def scanChunks (e : ByteOrder) (raw : List Nat) :
    Nat → Nat → List (Nat × List Nat) → Except RpycError (List (Nat × List Nat))
  | 0, _, chunks => .ok chunks
  | fuel + 1, position, chunks =>
    match unpackIII e (pySlice raw position (position + 12)) with
    | .error er => .error er
    | .ok (slot, start, length) =>
      if slot = 0 then
        .ok chunks
      else
        scanChunks e raw fuel (position + 12)
          ((slot, pySlice raw start (start + length)) :: chunks)

/-- The archive-reading part of `read_ast_from_file` (decompile.py lines
28-52), the spec's `read_payload` contract: legacy inputs (no magic marker)
are returned whole; indexed inputs are scanned from offset 10 and the slot-1
chunk is returned, `ValueError` if slot 1 was never recorded. -/
def read_payload (e : ByteOrder) (raw : List Nat) : Except RpycError (List Nat) :=
  if MAGIC.isPrefixOf raw = false then
    .ok raw
  else
    match scanChunks e raw SCAN_FUEL 10 [] with
    | .error er => .error er
    | .ok chunks =>
      match chunks.lookup 1 with
      | some c => .ok c
      | none => .error (.valueError "Unable to find data slot in RPYC file")

/-- The slot field of the record that `struct.unpack` would decode at
`pos`, when 12 bytes are available there. -/
def slotAt (e : ByteOrder) (raw : List Nat) (pos : Nat) : Option Nat :=
  match unpackIII e (pySlice raw pos (pos + 12)) with
  | .ok t => some t.1
  | .error _ => none

/-- The chunk map produced by scanning `records`, each payload sliced out of
`raw`, newest insertion first, on top of `acc`. -/
def chunksOf (raw : List Nat) (records : List (Nat × Nat × Nat))
    (acc : List (Nat × List Nat)) : List (Nat × List Nat) :=
  records.foldl (fun a r => (r.1, pySlice raw r.2.1 (r.2.1 + r.2.2)) :: a) acc

/-- Well-formedness of a record triple for encoding purposes: non-zero slot
and all three fields below `2^32`. -/
def wfRec (r : Nat × Nat × Nat) : Prop :=
  r.1 ≠ 0 ∧ r.1 < 4294967296 ∧ r.2.1 < 4294967296 ∧ r.2.2 < 4294967296

instance (r : Nat × Nat × Nat) : Decidable (wfRec r) := by
  unfold wfRec
  infer_instance

/-- The `(start, length)` pair of the last record in `records` whose slot
field equals `s`, if any: this is what the Python dict `chunks` holds for key
`s` after the scan, since each assignment `chunks[slot] = ...` overwrites the
previous one. -/
def lastSlot : List (Nat × Nat × Nat) → Nat → Option (Nat × Nat)
  | [], _ => none
  | r :: rs, s =>
    match lastSlot rs s with
    | some x => some x
    | none => if r.1 = s then some r.2 else none

/-- A single index record for slot 1 with start 0 and length 0. -/
def rec1 : List Nat := encRec .little (1, 0, 0)

/-- A pathological indexed archive made of `0xFFFFFFFE` well-formed slot-1
records and no zero-slot terminator at all: exactly enough records to exhaust
the `range(1, 0xFFFFFFFF)` loop. -/
def noSentinelArchive : List Nat :=
  MAGIC ++ (List.replicate SCAN_FUEL rec1).flatten

/-- A synthetic indexed archive: marker, then the given records, then a
zero-slot terminator `(0, z, w)`, then trailing bytes. -/
def wrapArchive (e : ByteOrder) (records : List (Nat × Nat × Nat))
    (z w : Nat) (junk : List Nat) : List Nat :=
  MAGIC ++ ((records.map (encRec e)).flatten ++ (encRec e (0, z, w) ++ junk))

/-- Modelled from the spec: the object graph reconstructed by the Safe Graph
Deserializer (`pickle_safe_loads`, vendored outside `src/`): scalars
(integers, strings, booleans, null), ordered sequences, key-ordered
mappings, named-tuple-like fixed-shape records, and allow-listed typed
objects.  Back-reference *sharing* is observable here only as value reuse;
identity/cycle patching is not modelled since no settled claim depends on
it. -/
inductive PyVal where
  | none
  | bool (b : Bool)
  | int (n : Int)
  | str (s : String)
  | list (xs : List PyVal)
  | tuple (xs : List PyVal)
  | dict (kvs : List (PyVal × PyVal))
  | obj (ty : String) (fields : List PyVal)

/-- Modelled from the spec: the opcode families of the tagged-object
encoding (the spec fixes the semantics, not the wire-format bit layout):
push scalar literal; build sequence/mapping from top-of-stack items;
construct a typed object through the Allow-list; store/retrieve a reference
by memo index; mark end-of-stream.  The type identifier and item counts are
carried as opcode operands. -/
inductive Opcode where
  | pushNone
  | pushBool (b : Bool)
  | pushInt (n : Int)
  | pushStr (s : String)
  | buildList (n : Nat)
  | buildTuple (n : Nat)
  | buildDict (n : Nat)
  | construct (ty : String)
  | memoPut
  | memoGet (i : Nat)
  | stop
deriving DecidableEq

/-- Deserializer machine state: operand stack (top first) and the growable
ordered memo table. -/
structure DState where
  stack : List PyVal
  memo : List PyVal

/-- Pop `n` items off the stack; the popped items are returned in
construction order (deepest first).  Fails on stack underflow. -/
def popN (stack : List PyVal) (n : Nat) : Option (List PyVal × List PyVal) :=
  if n ≤ stack.length then some ((stack.take n).reverse, stack.drop n) else none

/-- Group a flat list of `2 * n` values into key-value pairs. -/
def pairUp : List PyVal → List (PyVal × PyVal)
  | a :: b :: rest => (a, b) :: pairUp rest
  | _ => []

/-- Modelled from the spec: one opcode of the Safe Graph Deserializer.  A
`construct` whose type identifier is absent from the Allow-list `A` fails
closed with `UnsupportedTypeError`; present identifiers use the recipe's
positional field count.  Stack underflow and bad memo indices are
`MalformedStreamError`.  (`stop` is handled by the driver `runOps`; reaching
it here is treated as malformed.) -/
def step (A : List (String × Nat)) (st : DState) (op : Opcode) :
    Except RpycError DState :=
  match op with
  | .pushNone => .ok { st with stack := .none :: st.stack }
  | .pushBool b => .ok { st with stack := .bool b :: st.stack }
  | .pushInt n => .ok { st with stack := .int n :: st.stack }
  | .pushStr s => .ok { st with stack := .str s :: st.stack }
  | .buildList n =>
    match popN st.stack n with
    | some (items, rest) => .ok { st with stack := .list items :: rest }
    | Option.none => .error .malformedStream
  | .buildTuple n =>
    match popN st.stack n with
    | some (items, rest) => .ok { st with stack := .tuple items :: rest }
    | Option.none => .error .malformedStream
  | .buildDict n =>
    match popN st.stack (2 * n) with
    | some (items, rest) => .ok { st with stack := .dict (pairUp items) :: rest }
    | Option.none => .error .malformedStream
  | .construct ty =>
    match A.lookup ty with
    | Option.none => .error (.unsupportedTypeError ty)
    | some arity =>
      match popN st.stack arity with
      | some (fields, rest) => .ok { st with stack := .obj ty fields :: rest }
      | Option.none => .error .malformedStream
  | .memoPut =>
    match st.stack with
    | v :: _ => .ok { st with memo := st.memo ++ [v] }
    | [] => .error .malformedStream
  | .memoGet i =>
    match st.memo.get? i with
    | some v => .ok { st with stack := v :: st.stack }
    | Option.none => .error .malformedStream
  | .stop => .error .malformedStream

/-- Run a prefix of the stream without encountering the end-of-stream
marker. -/
def execOps (A : List (String × Nat)) : DState → List Opcode → Except RpycError DState
  | st, [] => .ok st
  | st, op :: rest =>
    match step A st op with
    | .error er => .error er
    | .ok st2 => execOps A st2 rest

/-- Modelled from the spec: the opcode interpreter.  `stop` returns the
stack top; a stream that ends without `stop`, or stops on an empty stack, is
malformed. -/
def runOps (A : List (String × Nat)) : DState → List Opcode → Except RpycError PyVal
  | _, [] => .error .malformedStream
  | st, op :: rest =>
    match op with
    | .stop =>
      match st.stack with
      | v :: _ => .ok v
      | [] => .error .malformedStream
    | _ =>
      match step A st op with
      | .error er => .error er
      | .ok st2 => runOps A st2 rest

/-- Modelled from the spec: `deserialize(stream) -> (metadata, root_object)`.
The root of the graph is the fixed-shape pair (metadata,
statement-sequence), matching the unpacking `_, stmts = pickle_safe_loads(contents)`. -/
def deserialize (A : List (String × Nat)) (ops : List Opcode) :
    Except RpycError (PyVal × PyVal) :=
  match runOps A ⟨[], []⟩ ops with
  | .error er => .error er
  | .ok (.tuple [m, r]) => .ok (m, r)
  | .ok _ => .error .malformedStream

/-- The full pipeline of `read_ast_from_file`: archive reading, then
decompression (`zlib.decompress`, abstracted as `inflate`), then wire-format
decoding into opcodes (abstracted as `decode`), then safe deserialization.
-/
def deserializePipeline (e : ByteOrder)
    (inflate : List Nat → Except RpycError (List Nat))
    (decode : List Nat → Except RpycError (List Opcode))
    (A : List (String × Nat)) (raw : List Nat) :
    Except RpycError (PyVal × PyVal) :=
  match read_payload e raw with
  | .error er => .error er
  | .ok payload =>
    match inflate payload with
    | .error er => .error er
    | .ok stream =>
      match decode stream with
      | .error er => .error er
      | .ok ops => deserialize A ops

/-- The function `read_ast_from_file` returns only the statement sequence (the second
component): `_, stmts = pickle_safe_loads(contents); return stmts`. -/
def read_ast_from_file (e : ByteOrder)
    (inflate : List Nat → Except RpycError (List Nat))
    (decode : List Nat → Except RpycError (List Opcode))
    (A : List (String × Nat)) (raw : List Nat) : Except RpycError PyVal :=
  match deserializePipeline e inflate decode A raw with
  | .error er => .error er
  | .ok p => .ok p.2

-- The allow-list safety invariant: every object type instantiated anywhere
-- in a deserialized value is present in the Allow-list.

mutual

def allowedVal (A : List (String × Nat)) : PyVal → Bool
  | .none => true
  | .bool _ => true
  | .int _ => true
  | .str _ => true
  | .list xs => allowedVals A xs
  | .tuple xs => allowedVals A xs
  | .dict kvs => allowedKVs A kvs
  | .obj ty fields => (A.lookup ty).isSome && allowedVals A fields

def allowedVals (A : List (String × Nat)) : List PyVal → Bool
  | [] => true
  | v :: vs => allowedVal A v && allowedVals A vs

def allowedKVs (A : List (String × Nat)) : List (PyVal × PyVal) → Bool
  | [] => true
  | (k, v) :: kvs => allowedVal A k && allowedVal A v && allowedKVs A kvs

end

/-- Both machine regions hold only allow-list-clean values. -/
def stateOK (A : List (String × Nat)) (st : DState) : Prop :=
  (∀ v ∈ st.stack, allowedVal A v = true) ∧ (∀ v ∈ st.memo, allowedVal A v = true)

/-- A 35-byte indexed archive whose single slot-1 record declares
`start = 34, length = 100` although only one byte follows offset 34. -/
def oobArchive : List Nat := wrapArchive .little [(1, 34, 100)] 0 0 [5]

/-- The opcode stream of the serialized pair `(None, [])`: push the
metadata `None`, build the empty statement sequence, form the root pair,
stop. -/
def pairOps : List Opcode :=
  [Opcode.pushNone, Opcode.buildList 0, Opcode.buildTuple 2, Opcode.stop]

/-- A concrete decompressor conforming to the C9 scenario: it decompresses
exactly the 3-byte compressed stream `[9, 9, 9]` (to `[7]`) and rejects
everything else, as zlib rejects non-zlib data. -/
def inflate22 : List Nat → Except RpycError (List Nat) :=
  fun bs => if bs = [9, 9, 9] then .ok [7] else .error .decompressionError

/-- A concrete wire decoder conforming to the C9 scenario: the decompressed
stream `[7]` encodes the opcodes of the pair `(None, [])`. -/
def decode22 : List Nat → Except RpycError (List Opcode) :=
  fun bs => if bs = [7] then .ok pairOps else .error .malformedStream

/-- The archive of C9 exactly as the spec words it: marker, record
`(1, 22, L)` with `L = 3`, zero record, then the compressed bytes — which
therefore sit at offset 34, not 22. -/
def arch22 : List Nat := wrapArchive .little [(1, 22, 3)] 0 0 [9, 9, 9]

-- Theorems.

-- Basic facts about the byte-level codecs.
theorem encodeU32_length (e : ByteOrder) (n : Nat) : (encodeU32 e n).length = 4 := by
  cases e <;> simp [encodeU32]

theorem encRec_length (e : ByteOrder) (r : Nat × Nat × Nat) :
    (encRec e r).length = 12 := by
  simp [encRec, encodeU32_length]

theorem unpackIII_wrong_length (e : ByteOrder) (bs : List Nat)
    (h : bs.length ≠ 12) : unpackIII e bs = .error .structError := by
  simp [unpackIII, h]

theorem unpack_encRec (e : ByteOrder) (s a l : Nat)
    (hs : s < 4294967296) (ha : a < 4294967296) (hl : l < 4294967296) :
    unpackIII e (encRec e (s, a, l)) = .ok (s, a, l) := by
  cases e <;>
    · simp [unpackIII, encRec, encodeU32, readU32]
      refine ⟨?_, ?_, ?_⟩ <;> omega

-- List plumbing used by the scanner proofs.

theorem drop_append_len (xs ys : List Nat) :
    (xs ++ ys).drop xs.length = ys := by
  induction xs with
  | nil => simp
  | cons x xs ih => simp [ih]

theorem take_append_len (xs ys : List Nat) :
    (xs ++ ys).take xs.length = xs := by
  induction xs with
  | nil => simp
  | cons x xs ih => simp [ih]

theorem pySlice_at (raw : List Nat) (pos : Nat) :
    pySlice raw pos (pos + 12) = (raw.drop pos).take 12 := by
  simp [pySlice]

/-- Unpacking the 12-byte record sitting at the front of the rest of the
buffer. -/
theorem unpack_slice_of_drop (e : ByteOrder) (raw : List Nat) (pos : Nat)
    (r : Nat × Nat × Nat) (rest : List Nat)
    (hdrop : raw.drop pos = encRec e r ++ rest) (hwf : wfRec r) :
    unpackIII e (pySlice raw pos (pos + 12)) = .ok r := by
  obtain ⟨s, a, l⟩ := r
  obtain ⟨h0, hs, ha, hl⟩ := hwf
  have h12 : (encRec e (s, a, l)).length = 12 := encRec_length e _
  have : pySlice raw pos (pos + 12) = encRec e (s, a, l) := by
    rw [pySlice_at, hdrop, ← h12, take_append_len]
  rw [this]
  exact unpack_encRec e s a l hs ha hl

/-- After consuming the record at `pos`, the remaining buffer. -/
theorem drop_next (raw : List Nat) (pos : Nat) (blk rest : List Nat)
    (hblk : blk.length = 12) (hdrop : raw.drop pos = blk ++ rest) :
    raw.drop (pos + 12) = rest := by
  have : raw.drop (pos + 12) = (raw.drop pos).drop 12 := by
    rw [List.drop_drop]
  rw [this, hdrop, ← hblk, drop_append_len]

/-- Main shape lemma for the scanner: if the unread part of the buffer at
`pos` is a sequence of well-formed non-zero-slot records followed by a
zero-slot terminator record (and anything after it), and the iteration
budget exceeds the record count, the scan succeeds and produces exactly the
chunk map of those records. -/
theorem scanChunks_records (e : ByteOrder) (raw : List Nat) :
    ∀ (records : List (Nat × Nat × Nat)) (fuel pos : Nat)
      (acc : List (Nat × List Nat)) (z w : Nat) (junk : List Nat),
      raw.drop pos = (records.map (encRec e)).flatten ++ encRec e (0, z, w) ++ junk →
      records.length < fuel →
      (∀ r ∈ records, wfRec r) →
      z < 4294967296 → w < 4294967296 →
      scanChunks e raw fuel pos acc = .ok (chunksOf raw records acc) := by
  intro records
  induction records with
  | nil =>
    intro fuel pos acc z w junk hdrop hfuel _ hz hw
    obtain ⟨f, rfl⟩ : ∃ f, fuel = f + 1 := ⟨fuel - 1, by omega⟩
    have hu : unpackIII e (pySlice raw pos (pos + 12)) = .ok (0, z, w) := by
      have h12 : (encRec e (0, z, w)).length = 12 := encRec_length e _
      have : pySlice raw pos (pos + 12) = encRec e (0, z, w) := by
        rw [pySlice_at, hdrop]
        simp only [List.map_nil, List.flatten_nil, List.nil_append]
        rw [← h12, take_append_len]
      rw [this]
      exact unpack_encRec e 0 z w (by omega) hz hw
    simp [scanChunks, hu, chunksOf]
  | cons r rs ih =>
    intro fuel pos acc z w junk hdrop hfuel hwf hz hw
    obtain ⟨f, rfl⟩ : ∃ f, fuel = f + 1 := ⟨fuel - 1, by omega⟩
    have hdrop' : raw.drop pos =
        encRec e r ++ ((rs.map (encRec e)).flatten ++ encRec e (0, z, w) ++ junk) := by
      simpa [List.append_assoc] using hdrop
    have hwr : wfRec r := hwf r (by simp)
    have hu : unpackIII e (pySlice raw pos (pos + 12)) = .ok r :=
      unpack_slice_of_drop e raw pos r _ hdrop' hwr
    obtain ⟨s, a, l⟩ := r
    have hs0 : s ≠ 0 := hwr.1
    have hnext : raw.drop (pos + 12) =
        (rs.map (encRec e)).flatten ++ encRec e (0, z, w) ++ junk := by
      have := drop_next raw pos (encRec e (s, a, l)) _ (encRec_length e _) hdrop'
      simpa [List.append_assoc] using this
    have hrec := ih f (pos + 12) ((s, pySlice raw a (a + l)) :: acc) z w junk
      hnext (by simpa using Nat.lt_of_succ_lt_succ (by simpa using hfuel))
      (fun x hx => hwf x (by simp [hx])) hz hw
    simp [scanChunks, hu, hs0, hrec, chunksOf]

/-- Scanner hitting a truncated tail: the unread part of the buffer is a
sequence of well-formed non-zero-slot records followed by fewer than 12
bytes; the scan fails with `struct.error`. -/
theorem scanChunks_truncated (e : ByteOrder) (raw : List Nat) :
    ∀ (records : List (Nat × Nat × Nat)) (fuel pos : Nat)
      (acc : List (Nat × List Nat)) (tail : List Nat),
      raw.drop pos = (records.map (encRec e)).flatten ++ tail →
      records.length < fuel →
      (∀ r ∈ records, wfRec r) →
      tail.length < 12 →
      scanChunks e raw fuel pos acc = .error .structError := by
  intro records
  induction records with
  | nil =>
    intro fuel pos acc tail hdrop hfuel _ htail
    obtain ⟨f, rfl⟩ : ∃ f, fuel = f + 1 := ⟨fuel - 1, by omega⟩
    have hslice : pySlice raw pos (pos + 12) = tail := by
      rw [pySlice_at, hdrop]
      simp only [List.map_nil, List.flatten_nil, List.nil_append]
      exact List.take_of_length_le (by omega)
    have hu : unpackIII e (pySlice raw pos (pos + 12)) = .error .structError := by
      rw [hslice]
      exact unpackIII_wrong_length e tail (by omega)
    simp [scanChunks, hu]
  | cons r rs ih =>
    intro fuel pos acc tail hdrop hfuel hwf htail
    obtain ⟨f, rfl⟩ : ∃ f, fuel = f + 1 := ⟨fuel - 1, by omega⟩
    have hdrop' : raw.drop pos =
        encRec e r ++ ((rs.map (encRec e)).flatten ++ tail) := by
      simpa [List.append_assoc] using hdrop
    have hwr : wfRec r := hwf r (by simp)
    have hu : unpackIII e (pySlice raw pos (pos + 12)) = .ok r :=
      unpack_slice_of_drop e raw pos r _ hdrop' hwr
    obtain ⟨s, a, l⟩ := r
    have hs0 : s ≠ 0 := hwr.1
    have hnext : raw.drop (pos + 12) = (rs.map (encRec e)).flatten ++ tail := by
      exact drop_next raw pos (encRec e (s, a, l)) _ (encRec_length e _) hdrop'
    have hrec := ih f (pos + 12) ((s, pySlice raw a (a + l)) :: acc) tail
      hnext (by simpa using Nat.lt_of_succ_lt_succ (by simpa using hfuel))
      (fun x hx => hwf x (by simp [hx])) htail
    simp [scanChunks, hu, hs0, hrec]

theorem lastSlot_append (xs ys : List (Nat × Nat × Nat)) (s : Nat) :
    lastSlot (xs ++ ys) s =
      match lastSlot ys s with
      | some x => some x
      | none => lastSlot xs s := by
  induction xs with
  | nil =>
    simp only [List.nil_append]
    cases h : lastSlot ys s <;> simp [lastSlot, h]
  | cons x xs ih =>
    simp only [List.cons_append, lastSlot, List.append_eq]
    rw [ih]
    cases h : lastSlot ys s <;> cases h2 : lastSlot xs s <;> simp [h, h2]

theorem lastSlot_none (xs : List (Nat × Nat × Nat)) (s : Nat)
    (h : ∀ r ∈ xs, r.1 ≠ s) : lastSlot xs s = none := by
  induction xs with
  | nil => rfl
  | cons x xs ih =>
    have hx : x.1 ≠ s := h x (by simp)
    have := ih (fun r hr => h r (by simp [hr]))
    simp [lastSlot, this, hx]

/-- Looking a slot up in the chunk map built by the scan finds the payload of
the *last* record carrying that slot (dict-overwrite semantics), falling back
to `acc` when the slot never occurs. -/
theorem lookup_chunksOf (raw : List Nat) (records : List (Nat × Nat × Nat)) :
    ∀ (acc : List (Nat × List Nat)) (s : Nat),
      (chunksOf raw records acc).lookup s =
        match lastSlot records s with
        | some al => some (pySlice raw al.1 (al.1 + al.2))
        | none => acc.lookup s := by
  induction records with
  | nil => intro acc s; simp [chunksOf, lastSlot]
  | cons r rs ih =>
    intro acc s
    have hstep : chunksOf raw (r :: rs) acc =
        chunksOf raw rs ((r.1, pySlice raw r.2.1 (r.2.1 + r.2.2)) :: acc) := by
      simp [chunksOf]
    rw [hstep, ih]
    by_cases hr : r.1 = s
    · cases hls : lastSlot rs s with
      | some x => simp [lastSlot, hls]
      | none =>
        subst hr
        simp [lastSlot, hls, List.lookup]
    · cases hls : lastSlot rs s with
      | some x => simp [lastSlot, hls]
      | none =>
        have : (s == r.1) = false := by
          simp [beq_iff_eq]
          omega
        simp [lastSlot, hls, hr, List.lookup, this]

-- Facts about read_payload on archives that carry the magic marker.

theorem magic_marker_starts (body : List Nat) :
    MAGIC.isPrefixOf (MAGIC ++ body) = true := by
  rw [List.isPrefixOf_iff_prefix]
  exact List.prefix_append MAGIC body

theorem drop10_magic (body : List Nat) : (MAGIC ++ body).drop 10 = body := by
  have : MAGIC.length = 10 := by simp [MAGIC]
  rw [← this, drop_append_len]

/-- Evaluating `read_payload` on an indexed archive, reduced to the scanner. -/
theorem read_payload_indexed (e : ByteOrder) (body : List Nat) :
    read_payload e (MAGIC ++ body) =
      match scanChunks e (MAGIC ++ body) SCAN_FUEL 10 [] with
      | .error er => .error er
      | .ok chunks =>
        match chunks.lookup 1 with
        | some c => .ok c
        | none => .error (.valueError "Unable to find data slot in RPYC file") := by
  simp [read_payload, magic_marker_starts]

/-- If fewer than `12 * fuel` bytes remain at `pos` and no decodable record
at any of the positions `pos, pos+12, pos+24, ...` carries slot 0, the scan
runs off the end of the buffer and fails with `struct.error`.  (The bound on
the remaining length is what guarantees the iteration budget is not exhausted
first.) -/
theorem scanChunks_no_sentinel (e : ByteOrder) (raw : List Nat) :
    ∀ (fuel pos : Nat) (acc : List (Nat × List Nat)),
      1 ≤ fuel →
      raw.length < pos + 12 * fuel →
      (∀ k, slotAt e raw (pos + 12 * k) ≠ some 0) →
      scanChunks e raw fuel pos acc = .error .structError := by
  intro fuel
  induction fuel with
  | zero => intro pos acc h1; omega
  | succ f ih =>
    intro pos acc _ hlen hns
    by_cases hlt : raw.length < pos + 12
    · have hslen : (pySlice raw pos (pos + 12)).length < 12 := by
        rw [pySlice_at]
        simp [List.length_take, List.length_drop]
        omega
      have hu : unpackIII e (pySlice raw pos (pos + 12)) = .error .structError :=
        unpackIII_wrong_length e _ (by omega)
      simp [scanChunks, hu]
    · have hslen : (pySlice raw pos (pos + 12)).length = 12 := by
        rw [pySlice_at]
        simp [List.length_take, List.length_drop]
        omega
      obtain ⟨⟨s, a, l⟩, hu⟩ :
          ∃ t, unpackIII e (pySlice raw pos (pos + 12)) = .ok t := by
        simp [unpackIII, hslen]
      have hs0 : s ≠ 0 := by
        intro h
        apply hns 0
        simp [slotAt, hu, h]
      have hrec := ih (pos + 12) ((s, pySlice raw a (a + l)) :: acc)
        (by omega) (by omega)
        (by
          intro k
          have h := hns (k + 1)
          have harg : pos + 12 * (k + 1) = pos + 12 + 12 * k := by ring
          rwa [harg] at h)
      simp [scanChunks, hu, hs0, hrec]

theorem scan_replicate (raw : List Nat) :
    ∀ (n pos : Nat) (acc : List (Nat × List Nat)),
      raw.drop pos = (List.replicate n rec1).flatten →
      scanChunks .little raw n pos acc =
        .ok (List.replicate n ((1 : Nat), ([] : List Nat)) ++ acc) := by
  intro n
  induction n with
  | zero => intro pos acc _; simp [scanChunks]
  | succ m ih =>
    intro pos acc hdrop
    have hdrop' : raw.drop pos = rec1 ++ (List.replicate m rec1).flatten := by
      rw [hdrop, List.replicate_succ, List.flatten_cons]
    have hwf : wfRec (1, 0, 0) := by simp [wfRec]
    have hu : unpackIII .little (pySlice raw pos (pos + 12)) = .ok (1, 0, 0) := by
      have : rec1 = encRec .little (1, 0, 0) := rfl
      exact unpack_slice_of_drop .little raw pos (1, 0, 0) _ (by rwa [this] at hdrop') hwf
    have hnext : raw.drop (pos + 12) = (List.replicate m rec1).flatten :=
      drop_next raw pos rec1 _ (encRec_length .little _) hdrop'
    have hrec := ih (pos + 12) (((1 : Nat), ([] : List Nat)) :: acc) hnext
    have hps : pySlice raw 0 0 = ([] : List Nat) := by simp [pySlice]
    have hfold : List.replicate m ((1 : Nat), ([] : List Nat)) ++
        (((1 : Nat), ([] : List Nat)) :: acc) =
        List.replicate (m + 1) ((1 : Nat), ([] : List Nat)) ++ acc := by
      rw [List.replicate_succ']
      simp
    rw [hfold] at hrec
    simp [scanChunks, hu, hps, hrec]

theorem lookup_replicate_one (n : Nat) (hn : 0 < n) :
    (List.replicate n ((1 : Nat), ([] : List Nat))).lookup 1 = some [] := by
  obtain ⟨m, rfl⟩ : ∃ m, n = m + 1 := ⟨n - 1, by omega⟩
  rw [List.replicate_succ]
  simp [List.lookup]

/-- Evaluating `read_payload` on a well-formed synthetic indexed archive: the scan
terminates at the zero-slot record and the result is the last slot-1 record's
slice (dict-overwrite semantics), or `ValueError` when slot 1 never occurs. -/
theorem read_payload_wrapped (e : ByteOrder) (records : List (Nat × Nat × Nat))
    (z w : Nat) (junk : List Nat)
    (hwf : ∀ r ∈ records, wfRec r) (hcount : records.length < SCAN_FUEL)
    (hz : z < 4294967296) (hw : w < 4294967296) :
    read_payload e (wrapArchive e records z w junk) =
      match lastSlot records 1 with
      | some al =>
        .ok (pySlice (wrapArchive e records z w junk) al.1 (al.1 + al.2))
      | none => .error (.valueError "Unable to find data slot in RPYC file") := by
  have hdrop : (wrapArchive e records z w junk).drop 10 =
      (records.map (encRec e)).flatten ++ encRec e (0, z, w) ++ junk := by
    rw [wrapArchive, drop10_magic]
    simp [List.append_assoc]
  have hscan := scanChunks_records e (wrapArchive e records z w junk) records
    SCAN_FUEL 10 [] z w junk hdrop hcount hwf hz hw
  rw [wrapArchive, read_payload_indexed, ← wrapArchive]
  rw [hscan]
  cases h : lastSlot records 1 with
  | some al =>
    have hlook : (chunksOf (wrapArchive e records z w junk) records []).lookup 1 =
        some (pySlice (wrapArchive e records z w junk) al.1 (al.1 + al.2)) := by
      have hl := lookup_chunksOf (wrapArchive e records z w junk) records [] 1
      rw [h] at hl
      exact hl
    simp [hlook]
  | none =>
    have hlook : (chunksOf (wrapArchive e records z w junk) records []).lookup 1 =
        none := by
      have hl := lookup_chunksOf (wrapArchive e records z w junk) records [] 1
      rw [h] at hl
      exact hl
    simp [hlook]

theorem allowedVals_of_mem (A : List (String × Nat)) :
    ∀ l : List PyVal, (∀ v ∈ l, allowedVal A v = true) → allowedVals A l = true := by
  intro l
  induction l with
  | nil => intro _; rfl
  | cons v vs ih =>
    intro h
    simp only [allowedVals, Bool.and_eq_true]
    exact ⟨h v (by simp), ih (fun w hw => h w (by simp [hw]))⟩

theorem allowedKVs_pairUp (A : List (String × Nat)) :
    ∀ l : List PyVal, (∀ v ∈ l, allowedVal A v = true) →
      allowedKVs A (pairUp l) = true
  | [] => fun _ => rfl
  | [v] => fun _ => rfl
  | a :: b :: rest => fun h => by
    simp only [pairUp, allowedKVs, Bool.and_eq_true]
    exact ⟨⟨h a (by simp), h b (by simp)⟩,
      allowedKVs_pairUp A rest (fun w hw => h w (by simp [hw]))⟩

theorem popN_subset (stack : List PyVal) (n : Nat) (items rest : List PyVal)
    (h : popN stack n = some (items, rest)) :
    (∀ v ∈ items, v ∈ stack) ∧ ∀ v ∈ rest, v ∈ stack := by
  by_cases hle : n ≤ stack.length
  · rw [popN, if_pos hle] at h
    obtain ⟨h1, h2⟩ : (stack.take n).reverse = items ∧ stack.drop n = rest := by
      constructor <;> [exact congrArg Prod.fst (Option.some.inj h);
        exact congrArg Prod.snd (Option.some.inj h)]
    constructor
    · intro v hv
      rw [← h1, List.mem_reverse] at hv
      exact List.take_subset n stack hv
    · intro v hv
      rw [← h2] at hv
      exact List.drop_subset n stack hv
  · rw [popN, if_neg hle] at h
    cases h

/-- Every successful machine step preserves the allow-list invariant: the
only way an `obj` value is created is through a successful Allow-list
lookup. -/
theorem step_preserves (A : List (String × Nat)) (st st2 : DState) (op : Opcode)
    (hok : stateOK A st) (h : step A st op = .ok st2) : stateOK A st2 := by
  obtain ⟨hstack, hmemo⟩ := hok
  cases op with
  | pushNone =>
    obtain rfl : DState.mk (.none :: st.stack) st.memo = st2 := by
      simpa [step] using h
    refine ⟨?_, hmemo⟩
    intro v hv
    rcases List.mem_cons.mp hv with rfl | hv
    · rfl
    · exact hstack v hv
  | pushBool b =>
    obtain rfl : DState.mk (.bool b :: st.stack) st.memo = st2 := by
      simpa [step] using h
    refine ⟨?_, hmemo⟩
    intro v hv
    rcases List.mem_cons.mp hv with rfl | hv
    · rfl
    · exact hstack v hv
  | pushInt n =>
    obtain rfl : DState.mk (.int n :: st.stack) st.memo = st2 := by
      simpa [step] using h
    refine ⟨?_, hmemo⟩
    intro v hv
    rcases List.mem_cons.mp hv with rfl | hv
    · rfl
    · exact hstack v hv
  | pushStr s =>
    obtain rfl : DState.mk (.str s :: st.stack) st.memo = st2 := by
      simpa [step] using h
    refine ⟨?_, hmemo⟩
    intro v hv
    rcases List.mem_cons.mp hv with rfl | hv
    · rfl
    · exact hstack v hv
  | buildList n =>
    rw [step] at h
    cases hpop : popN st.stack n with
    | none => rw [hpop] at h; cases h
    | some p =>
      obtain ⟨items, rest⟩ := p
      rw [hpop] at h
      obtain rfl : DState.mk (.list items :: rest) st.memo = st2 := by
        simpa using h
      obtain ⟨hi, hr⟩ := popN_subset st.stack n items rest hpop
      refine ⟨?_, hmemo⟩
      intro v hv
      rcases List.mem_cons.mp hv with rfl | hv
      · simp only [allowedVal]
        exact allowedVals_of_mem A items (fun w hw => hstack w (hi w hw))
      · exact hstack v (hr v hv)
  | buildTuple n =>
    rw [step] at h
    cases hpop : popN st.stack n with
    | none => rw [hpop] at h; cases h
    | some p =>
      obtain ⟨items, rest⟩ := p
      rw [hpop] at h
      obtain rfl : DState.mk (.tuple items :: rest) st.memo = st2 := by
        simpa using h
      obtain ⟨hi, hr⟩ := popN_subset st.stack n items rest hpop
      refine ⟨?_, hmemo⟩
      intro v hv
      rcases List.mem_cons.mp hv with rfl | hv
      · simp only [allowedVal]
        exact allowedVals_of_mem A items (fun w hw => hstack w (hi w hw))
      · exact hstack v (hr v hv)
  | buildDict n =>
    rw [step] at h
    cases hpop : popN st.stack (2 * n) with
    | none => rw [hpop] at h; cases h
    | some p =>
      obtain ⟨items, rest⟩ := p
      rw [hpop] at h
      obtain rfl : DState.mk (.dict (pairUp items) :: rest) st.memo = st2 := by
        simpa using h
      obtain ⟨hi, hr⟩ := popN_subset st.stack (2 * n) items rest hpop
      refine ⟨?_, hmemo⟩
      intro v hv
      rcases List.mem_cons.mp hv with rfl | hv
      · simp only [allowedVal]
        exact allowedKVs_pairUp A items (fun w hw => hstack w (hi w hw))
      · exact hstack v (hr v hv)
  | construct ty =>
    cases hty : A.lookup ty with
    | none => simp [step, hty] at h
    | some arity =>
      cases hpop : popN st.stack arity with
      | none => simp [step, hty, hpop] at h
      | some p =>
        obtain ⟨fields, rest⟩ := p
        obtain rfl : DState.mk (.obj ty fields :: rest) st.memo = st2 := by
          simpa [step, hty, hpop] using h
        obtain ⟨hi, hr⟩ := popN_subset st.stack arity fields rest hpop
        refine ⟨?_, hmemo⟩
        intro v hv
        rcases List.mem_cons.mp hv with rfl | hv
        · simp only [allowedVal, Bool.and_eq_true]
          exact ⟨by simp [hty], allowedVals_of_mem A fields
            (fun w hw => hstack w (hi w hw))⟩
        · exact hstack v (hr v hv)
  | memoPut =>
    rw [step] at h
    cases hstk : st.stack with
    | nil => rw [hstk] at h; cases h
    | cons w ws =>
      rw [hstk] at h
      obtain rfl : DState.mk (w :: ws) (st.memo ++ [w]) = st2 := by
        simpa using h
      refine ⟨?_, ?_⟩
      · intro v hv
        exact hstack v (by rw [hstk]; exact hv)
      · intro v hv
        rcases List.mem_append.mp hv with hv | hv
        · exact hmemo v hv
        · rw [List.mem_singleton] at hv
          rw [hv]
          exact hstack w (by rw [hstk]; simp)
  | memoGet i =>
    rw [step] at h
    cases hget : st.memo.get? i with
    | none => rw [hget] at h; cases h
    | some w =>
      rw [hget] at h
      obtain rfl : DState.mk (w :: st.stack) st.memo = st2 := by
        simpa using h
      refine ⟨?_, hmemo⟩
      intro v hv
      rcases List.mem_cons.mp hv with rfl | hv
      · exact hmemo v (List.get?_mem hget)
      · exact hstack v hv
  | stop =>
    rw [step] at h
    cases h

theorem runOps_cons_nonstop (A : List (String × Nat)) (st : DState) (op : Opcode)
    (rest : List Opcode) (hop : op ≠ Opcode.stop) :
    runOps A st (op :: rest) =
      match step A st op with
      | .error er => .error er
      | .ok st2 => runOps A st2 rest := by
  cases op <;> first
    | rfl
    | exact absurd rfl hop

/-- Any value returned by the interpreter from an allow-list-clean state is
itself allow-list-clean. -/
theorem runOps_allowed (A : List (String × Nat)) :
    ∀ (ops : List Opcode) (st : DState) (v : PyVal),
      stateOK A st → runOps A st ops = .ok v → allowedVal A v = true := by
  intro ops
  induction ops with
  | nil =>
    intro st v _ h
    simp [runOps] at h
  | cons op rest ih =>
    intro st v hok h
    by_cases hop : op = Opcode.stop
    · subst hop
      cases hstk : st.stack with
      | nil => rw [runOps, hstk] at h; cases h
      | cons w ws =>
        rw [runOps, hstk] at h
        obtain rfl : w = v := by simpa using h
        exact hok.1 w (by rw [hstk]; simp)
    · rw [runOps_cons_nonstop A st op rest hop] at h
      cases hstep : step A st op with
      | error er => rw [hstep] at h; cases h
      | ok st2 =>
        rw [hstep] at h
        exact ih st2 v (step_preserves A st st2 op hok hstep) h

/-- Executing a clean prefix and then continuing is the same as continuing
from the state the prefix produced. -/
theorem runOps_of_execOps (A : List (String × Nat)) :
    ∀ (pre : List Opcode) (st st2 : DState) (tail : List Opcode),
      execOps A st pre = .ok st2 →
      runOps A st (pre ++ tail) = runOps A st2 tail := by
  intro pre
  induction pre with
  | nil =>
    intro st st2 tail h
    obtain rfl : st = st2 := by simpa [execOps] using h
    rfl
  | cons op pre ih =>
    intro st st2 tail h
    rw [execOps] at h
    cases hstep : step A st op with
    | error er => rw [hstep] at h; cases h
    | ok st1 =>
      rw [hstep] at h
      have hop : op ≠ Opcode.stop := by
        intro hs
        subst hs
        rw [step] at hstep
        cases hstep
      rw [List.cons_append, runOps_cons_nonstop A st op _ hop, hstep]
      exact ih st1 st2 tail h

theorem execOps_preserves (A : List (String × Nat)) :
    ∀ (pre : List Opcode) (st st2 : DState),
      stateOK A st → execOps A st pre = .ok st2 → stateOK A st2 := by
  intro pre
  induction pre with
  | nil =>
    intro st st2 hok h
    obtain rfl : st = st2 := by simpa [execOps] using h
    exact hok
  | cons op pre ih =>
    intro st st2 hok h
    rw [execOps] at h
    cases hstep : step A st op with
    | error er => rw [hstep] at h; cases h
    | ok st1 =>
      rw [hstep] at h
      exact ih st1 st2 (step_preserves A st st1 op hok hstep) h

/-- C1.  For every decompressed stream whose tagged-object encoding requests
construction of a type identifier not present in the Allow-list,
deserialization fails with `UnsupportedTypeError` even if the rest of the
stream is well-formed (first conjunct: any well-formed prefix, any
continuation), and the deserializer never instantiates a type outside the
Allow-list: every value a successful deserialization returns contains only
allow-listed object types (second conjunct). -/
theorem allowlist_rejects_unknown_type (A : List (String × Nat)) :
    (∀ ty, A.lookup ty = Option.none →
      ∀ (st0 st1 : DState) (pre rest : List Opcode),
        execOps A st0 pre = .ok st1 →
        runOps A st0 (pre ++ Opcode.construct ty :: rest) =
          .error (.unsupportedTypeError ty)) ∧
    (∀ (ops : List Opcode) (m r : PyVal),
      deserialize A ops = .ok (m, r) →
      allowedVal A m = true ∧ allowedVal A r = true) := by
  constructor
  · intro ty hty st0 st1 pre rest hexec
    rw [runOps_of_execOps A pre st0 st1 _ hexec]
    rw [runOps_cons_nonstop A st1 (Opcode.construct ty) rest (by simp)]
    rw [step, hty]
  · intro ops m r h
    rw [deserialize] at h
    cases hrun : runOps A ⟨[], []⟩ ops with
    | error er => rw [hrun] at h; cases h
    | ok w =>
      rw [hrun] at h
      have hst0 : stateOK A ⟨[], []⟩ := by
        constructor <;> intro v hv <;> cases hv
      have hw : allowedVal A w = true := runOps_allowed A ops ⟨[], []⟩ w hst0 hrun
      split at h
      · cases h
      · rename_i m2 r2 heq
        obtain ⟨rfl, rfl⟩ : m2 = m ∧ r2 = r := by
          constructor <;> [exact congrArg Prod.fst (Except.ok.inj h);
            exact congrArg Prod.snd (Except.ok.inj h)]
        have hwt : w = PyVal.tuple [m2, r2] := Except.ok.inj heq
        rw [hwt] at hw
        simp only [allowedVal, allowedVals, Bool.and_eq_true] at hw
        exact ⟨hw.1, hw.2.1⟩
      · cases h

/-- Witness for C1 at a concrete allow-list and stream: the allow-list knows
only `renpy.ast.Say`; a stream that first pushes a scalar and then requests
construction of `os.system` fails with `UnsupportedTypeError`, whatever
follows. -/
theorem allowlist_rejects_unknown_type_witness :
    List.lookup "os.system" [("renpy.ast.Say", 2)] = Option.none ∧
    execOps [("renpy.ast.Say", 2)] ⟨[], []⟩ [Opcode.pushNone] =
      .ok ⟨[PyVal.none], []⟩ ∧
    runOps [("renpy.ast.Say", 2)] ⟨[], []⟩
      ([Opcode.pushNone] ++ Opcode.construct "os.system" :: [Opcode.stop]) =
      .error (.unsupportedTypeError "os.system") :=
  ⟨by rfl, by rfl,
    (allowlist_rejects_unknown_type [("renpy.ast.Say", 2)]).1
      "os.system" (by rfl) ⟨[], []⟩ ⟨[PyVal.none], []⟩ [Opcode.pushNone]
      [Opcode.stop] (by rfl)⟩

-- Shared helpers for the single-record synthetic archive.

theorem wrapArchive_drop34 (e : ByteOrder) (r : Nat × Nat × Nat) (z w : Nat)
    (C : List Nat) : (wrapArchive e [r] z w C).drop 34 = C := by
  have hform : wrapArchive e [r] z w C =
      (MAGIC ++ encRec e r ++ encRec e (0, z, w)) ++ C := by
    simp [wrapArchive, List.append_assoc]
  have hlen : (MAGIC ++ encRec e r ++ encRec e (0, z, w)).length = 34 := by
    simp [MAGIC, encRec_length]
  rw [hform, ← hlen, drop_append_len]

theorem lastSlot_single (s a l : Nat) : lastSlot [(s, a, l)] s = some (a, l) := by
  simp [lastSlot]

/-- The payload slice of an archive whose single record points at the bytes
right after the terminator (offset 34). -/
theorem read_payload_wrap34 (e : ByteOrder) (C : List Nat)
    (hlen : C.length < 4294967296) :
    read_payload e (wrapArchive e [(1, 34, C.length)] 0 0 C) = .ok C := by
  have h := read_payload_wrapped e [(1, 34, C.length)] 0 0 C
    (by
      intro r hr
      rw [List.mem_singleton] at hr
      subst hr
      simp only [wfRec]
      exact ⟨by omega, by omega, by omega, hlen⟩)
    (by norm_num [SCAN_FUEL]) (by omega) (by omega)
  rw [lastSlot_single 1 34 C.length] at h
  have hps : pySlice (wrapArchive e [(1, 34, C.length)] 0 0 C) 34
      (34 + C.length) = C := by
    rw [pySlice, wrapArchive_drop34]
    have : 34 + C.length - 34 = C.length := by omega
    rw [this, List.take_length]
  have h2 : read_payload e (wrapArchive e [(1, 34, C.length)] 0 0 C) =
      .ok (pySlice (wrapArchive e [(1, 34, C.length)] 0 0 C) 34
        (34 + C.length)) := h
  rw [hps] at h2
  exact h2

/-- C5.  An input that does not begin with the 10-byte magic marker is
returned whole as the payload (legacy path), and the full pipeline on it is
exactly decompression plus deserialization of those very bytes. -/
theorem legacy_path_identity (e : ByteOrder)
    (inflate : List Nat → Except RpycError (List Nat))
    (decode : List Nat → Except RpycError (List Opcode))
    (A : List (String × Nat)) (raw : List Nat)
    (h : MAGIC.isPrefixOf raw = false) :
    read_payload e raw = .ok raw ∧
    deserializePipeline e inflate decode A raw =
      (match inflate raw with
       | .error er => .error er
       | .ok stream =>
         match decode stream with
         | .error er => .error er
         | .ok ops => deserialize A ops) := by
  have h1 : read_payload e raw = .ok raw := by
    rw [read_payload, if_pos h]
  exact ⟨h1, by rw [deserializePipeline, h1]⟩

/-- Witness for C5: the one-byte input `[0]` lacks the marker and is passed
through unchanged. -/
theorem legacy_path_identity_witness :
    MAGIC.isPrefixOf [0] = false ∧ read_payload .little [0] = .ok [0] :=
  ⟨by rfl,
    (legacy_path_identity .little (fun bs => .ok bs) (fun _ => .ok []) [] [0]
      (by rfl)).1⟩

/-- Counterexample for C2 as stated: the record's `start + length = 134`
exceeds the 35-byte archive, yet `read_payload` raises no error at all — it
returns the Python-clamped slice `[5]`, a 1-byte slice where 100 bytes were
declared.  (The spec demands `TruncatedError` here.) -/
theorem oob_slot1_clamped_cex :
    oobArchive.length = 35 ∧ read_payload .little oobArchive = .ok [5] :=
  ⟨by rfl, by rfl⟩

/-- C2 as amended.  Extraction never validates `start + length` against the
archive length: the payload is the clamped slice
`raw[start : start + length]`, whose length is
`min length (len(raw) - start)` — shorter than declared whenever the record
overruns the buffer — and no `TruncatedError` is raised at this stage. -/
theorem oob_slot1_clamped_slice (e : ByteOrder) (s l z w : Nat) (rest : List Nat)
    (hs : s < 4294967296) (hl : l < 4294967296)
    (hz : z < 4294967296) (hw : w < 4294967296) :
    read_payload e (wrapArchive e [(1, s, l)] z w rest) =
      .ok (pySlice (wrapArchive e [(1, s, l)] z w rest) s (s + l)) ∧
    (pySlice (wrapArchive e [(1, s, l)] z w rest) s (s + l)).length =
      min l ((wrapArchive e [(1, s, l)] z w rest).length - s) := by
  constructor
  · have h := read_payload_wrapped e [(1, s, l)] z w rest
      (by
        intro r hr
        rw [List.mem_singleton] at hr
        subst hr
        simp only [wfRec]
        exact ⟨by omega, by omega, hs, hl⟩)
      (by norm_num [SCAN_FUEL]) hz hw
    rw [lastSlot_single 1 s l] at h
    exact h
  · rw [pySlice]
    have : s + l - s = l := by omega
    rw [this]
    simp [List.length_take, List.length_drop]

/-- Witness for the amended C2, at the concrete overrunning archive
`oobArchive`: the result is the clamped 1-byte slice. -/
theorem oob_slot1_clamped_slice_witness :
    read_payload .little (wrapArchive .little [(1, 34, 100)] 0 0 [5]) =
      .ok (pySlice (wrapArchive .little [(1, 34, 100)] 0 0 [5]) 34 (34 + 100)) ∧
    (pySlice (wrapArchive .little [(1, 34, 100)] 0 0 [5]) 34 (34 + 100)).length =
      min 100 ((wrapArchive .little [(1, 34, 100)] 0 0 [5]).length - 34) :=
  oob_slot1_clamped_slice .little 34 100 0 0 [5] (by norm_num) (by norm_num)
    (by norm_num) (by norm_num)

/-- C3.  Truncating an indexed archive strictly between two record
boundaries — any run of complete, well-formed, non-zero-slot records
followed by a tail of fewer than 12 bytes and no terminator — fails with
`struct.error` (the spec's `TruncatedError`); the scan never reads past the
buffer (slicing is total and the failing unpack sees only the short tail).
The record count is below the loop's `range(1, 0xFFFFFFFF)` budget, so the
scanner actually expects a record at the truncated position. -/
theorem truncated_between_records_fails (e : ByteOrder)
    (records : List (Nat × Nat × Nat)) (tail : List Nat)
    (hwf : ∀ r ∈ records, wfRec r) (hcount : records.length < SCAN_FUEL)
    (htail : tail.length < 12) :
    read_payload e (MAGIC ++ ((records.map (encRec e)).flatten ++ tail)) =
      .error .structError := by
  have hdrop : (MAGIC ++ ((records.map (encRec e)).flatten ++ tail)).drop 10 =
      (records.map (encRec e)).flatten ++ tail := drop10_magic _
  have hscan := scanChunks_truncated e
    (MAGIC ++ ((records.map (encRec e)).flatten ++ tail)) records SCAN_FUEL 10
    [] tail hdrop hcount hwf htail
  rw [read_payload_indexed, hscan]

/-- Witness for C3: one complete slot-2 record followed by a single stray
byte. -/
theorem truncated_between_records_fails_witness :
    read_payload .little
      (MAGIC ++ (([((2 : Nat), (0 : Nat), (0 : Nat))].map
        (encRec .little)).flatten ++ [9])) = .error .structError :=
  truncated_between_records_fails .little [(2, 0, 0)] [9]
    (by decide) (by norm_num [SCAN_FUEL]) (by norm_num)

/-- C4.  An indexed archive whose scan reaches the zero-slot terminator
having recorded only slots other than 1 fails with
`ValueError "Unable to find data slot in RPYC file"` (the spec's
`FormatError`): it never returns empty or arbitrary payload bytes. -/
theorem missing_slot_one_fails (e : ByteOrder)
    (records : List (Nat × Nat × Nat)) (z w : Nat) (junk : List Nat)
    (hwf : ∀ r ∈ records, wfRec r) (hcount : records.length < SCAN_FUEL)
    (hz : z < 4294967296) (hw : w < 4294967296)
    (hnone : ∀ r ∈ records, r.1 ≠ 1) :
    read_payload e (wrapArchive e records z w junk) =
      .error (.valueError "Unable to find data slot in RPYC file") := by
  have h := read_payload_wrapped e records z w junk hwf hcount hz hw
  rw [lastSlot_none records 1 hnone] at h
  exact h

/-- Witness for C4: records for slots 2 and 3 only (the spec's own
example). -/
theorem missing_slot_one_fails_witness :
    read_payload .little (wrapArchive .little [(2, 0, 0), (3, 0, 0)] 0 0 []) =
      .error (.valueError "Unable to find data slot in RPYC file") :=
  missing_slot_one_fails .little [(2, 0, 0), (3, 0, 0)] 0 0 []
    (by decide) (by norm_num [SCAN_FUEL]) (by norm_num) (by norm_num) (by decide)

/-- C6.  Round-trip framing: compressing any payload `P` and wrapping the
compressed bytes as marker + one slot-1 record addressing them (offset 34,
right after the terminator) + zero-slot terminator, then running the Archive
Reader followed by decompression, yields back exactly `P` — for every
compression scheme satisfying the decompress-compress identity. -/
theorem roundtrip_framing
    (compress : List Nat → List Nat)
    (inflate : List Nat → Except RpycError (List Nat)) (P : List Nat)
    (hround : inflate (compress P) = .ok P)
    (hlen : (compress P).length < 4294967296) :
    (read_payload .little
        (wrapArchive .little [(1, 34, (compress P).length)] 0 0
          (compress P))).bind inflate = .ok P := by
  rw [read_payload_wrap34 .little (compress P) hlen]
  simpa [Except.bind] using hround

/-- Witness for C6 at the identity codec and `P = [7]`. -/
theorem roundtrip_framing_witness :
    (read_payload .little
        (wrapArchive .little [(1, 34, ((fun bs => bs) [7] : List Nat).length)]
          0 0 ((fun bs => bs) [7]))).bind (fun bs => Except.ok bs) =
      .ok [7] :=
  roundtrip_framing (fun bs => bs) (fun bs => .ok bs) [7] (by rfl) (by norm_num)

/-- Counterexample for C7 as stated: `noSentinelArchive` is an indexed
archive that never presents a zero-slot sentinel record, yet the scan does
not fail — the loop budget `range(1, 0xFFFFFFFF)` is exhausted after
`0xFFFFFFFE` records (the bound is this hardcoded constant, not the
remaining buffer length) and the reader falls through and *succeeds*,
returning slot 1's (empty) slice. -/
theorem scan_fuel_exhaustion_cex :
    read_payload ByteOrder.little noSentinelArchive = Except.ok [] := by
  have hdrop : noSentinelArchive.drop 10 = (List.replicate SCAN_FUEL rec1).flatten :=
    drop10_magic _
  have hscan := scan_replicate noSentinelArchive SCAN_FUEL 10 [] hdrop
  rw [List.append_nil] at hscan
  rw [noSentinelArchive, read_payload_indexed, ← noSentinelArchive, hscan]
  simp [lookup_replicate_one SCAN_FUEL (by norm_num [SCAN_FUEL])]

/-- C7 as amended.  The scan terminates on every input (it is a total
function of the explicit `0xFFFFFFFE`-iteration budget) and never reads out
of bounds; and on every archive that carries the marker, decodes no zero
slot at any scanned position, and is shorter than `10 + 12 * 0xFFFFFFFE`
bytes — so the record budget cannot be exhausted before the buffer runs out
— reading fails with `struct.error` (the spec's `TruncatedError`) instead of
looping forever. -/
theorem scan_bounded_fails_without_sentinel (e : ByteOrder) (raw : List Nat)
    (hpre : MAGIC.isPrefixOf raw = true)
    (hlen : raw.length < 10 + 12 * SCAN_FUEL)
    (hns : ∀ k, slotAt e raw (10 + 12 * k) ≠ some 0) :
    read_payload e raw = .error .structError := by
  have hscan := scanChunks_no_sentinel e raw SCAN_FUEL 10 []
    (by norm_num [SCAN_FUEL]) (by omega) hns
  rw [read_payload, if_neg (by simp [hpre]), hscan]

/-- Witness for the amended C7: the marker followed by three stray bytes. -/
theorem scan_bounded_fails_without_sentinel_witness :
    read_payload .little (MAGIC ++ [1, 2, 3]) = .error .structError :=
  scan_bounded_fails_without_sentinel .little (MAGIC ++ [1, 2, 3]) (by rfl)
    (by norm_num [MAGIC, SCAN_FUEL])
    (by
      intro k
      have hne : (pySlice (MAGIC ++ [1, 2, 3]) (10 + 12 * k)
          (10 + 12 * k + 12)).length ≠ 12 := by
        rw [pySlice_at]
        have hlen13 : (MAGIC ++ [1, 2, 3]).length = 13 := by rfl
        simp [List.length_take, List.length_drop, hlen13]
        omega
      simp [slotAt, unpackIII_wrong_length ByteOrder.little _ hne])

/-- Counterexample for C8 as stated: the very same 12 record bytes decode to
different triples under the two native byte orders `struct.unpack("III", …)`
may use, so the decoding is *not* little-endian on every platform: on a
big-endian host the record `(1, 22, 5)` (little-endian bytes) is read as
`(16777216, 369098752, 83886080)`. -/
theorem native_order_decode_cex :
    unpackIII ByteOrder.big [1, 0, 0, 0, 22, 0, 0, 0, 5, 0, 0, 0] =
      .ok (16777216, 369098752, 83886080) ∧
    unpackIII ByteOrder.little [1, 0, 0, 0, 22, 0, 0, 0, 5, 0, 0, 0] =
      .ok (1, 22, 5) :=
  ⟨by rfl, by rfl⟩

/-- C8 as amended.  Every 12-byte index record is decoded as a triple of
unsigned 32-bit integers in the platform's *native* byte order (`"III"`
carries no order prefix): decoding inverts same-order encoding, hence equals
the little-endian reading exactly on little-endian platforms. -/
theorem native_order_record_decode (e : ByteOrder) (s a l : Nat)
    (hs : s < 4294967296) (ha : a < 4294967296) (hl : l < 4294967296) :
    unpackIII e (encRec e (s, a, l)) = .ok (s, a, l) :=
  unpack_encRec e s a l hs ha hl

/-- Witness for the amended C8 at the little-endian record `(1, 22, 5)`. -/
theorem native_order_record_decode_witness :
    unpackIII ByteOrder.little (encRec ByteOrder.little (1, 22, 5)) =
      .ok (1, 22, 5) :=
  native_order_record_decode ByteOrder.little 1 22 5 (by norm_num)
    (by norm_num) (by norm_num)

/-- Counterexample for C9 as stated: with a conforming codec (the compressed
pair `(None, [])` is `[9, 9, 9]`, `L = 3`), the archive built per the claim —
record start 22 — does *not* deserialize to `(None, [])`: offset 22 is where
the zero record lies (10-byte marker + one 12-byte record = 22, and the
12-byte zero record follows), so the reader hands the zero record's bytes
`[0, 0, 0]` to the decompressor, which fails. -/
theorem end_to_end_offset22_cex :
    inflate22 [9, 9, 9] = .ok [7] ∧
    decode22 [7] = .ok pairOps ∧
    deserialize [] pairOps = .ok (PyVal.none, PyVal.list []) ∧
    deserializePipeline .little inflate22 decode22 [] arch22 =
      .error .decompressionError :=
  ⟨by rfl, by rfl, by rfl, by rfl⟩

/-- C9 as amended.  With the record start corrected to 34 (the first byte
after marker, slot-1 record and zero record), the pipeline on
marker + `(1, 34, L)` + `(0,0,0)` + compressed bytes returns metadata `None`
and root object `[]`, for any conforming decompressor/decoder and any
allow-list. -/
theorem end_to_end_offset34
    (inflate : List Nat → Except RpycError (List Nat))
    (decode : List Nat → Except RpycError (List Opcode))
    (A : List (String × Nat)) (C S : List Nat)
    (hinf : inflate C = .ok S) (hdec : decode S = .ok pairOps)
    (hlen : C.length < 4294967296) :
    deserializePipeline .little inflate decode A
      (wrapArchive .little [(1, 34, C.length)] 0 0 C) =
      .ok (PyVal.none, PyVal.list []) := by
  have hrp := read_payload_wrap34 .little C hlen
  simp only [deserializePipeline, hrp, hinf, hdec]
  rfl

/-- Witness for the amended C9 at the concrete conforming codec of the
counterexample and compressed bytes `[9, 9, 9]`. -/
theorem end_to_end_offset34_witness :
    deserializePipeline .little inflate22 decode22 []
      (wrapArchive .little [(1, 34, ([9, 9, 9] : List Nat).length)] 0 0
        [9, 9, 9]) = .ok (PyVal.none, PyVal.list []) :=
  end_to_end_offset34 inflate22 decode22 [] [9, 9, 9] [7] (by rfl) (by rfl)
    (by norm_num)

/-- C10.  When several records carry the same non-zero slot number `s`, the
chunk map the scan produces associates `s` with the byte range of the *last*
such record before the terminator: each dict assignment
`chunks[slot] = raw[start : start+length]` overwrites the previous one. -/
theorem duplicate_slot_last_record_wins (e : ByteOrder)
    (pre mid post : List (Nat × Nat × Nat)) (s a1 l1 a2 l2 z w : Nat)
    (junk : List Nat)
    (hwf : ∀ r ∈ pre ++ [(s, a1, l1)] ++ mid ++ [(s, a2, l2)] ++ post, wfRec r)
    (hcount : (pre ++ [(s, a1, l1)] ++ mid ++ [(s, a2, l2)] ++ post).length <
      SCAN_FUEL)
    (hz : z < 4294967296) (hw : w < 4294967296)
    (hpost : ∀ r ∈ post, r.1 ≠ s) :
    scanChunks e
        (wrapArchive e (pre ++ [(s, a1, l1)] ++ mid ++ [(s, a2, l2)] ++ post)
          z w junk) SCAN_FUEL 10 [] =
      .ok (chunksOf
        (wrapArchive e (pre ++ [(s, a1, l1)] ++ mid ++ [(s, a2, l2)] ++ post)
          z w junk)
        (pre ++ [(s, a1, l1)] ++ mid ++ [(s, a2, l2)] ++ post) []) ∧
    (chunksOf
        (wrapArchive e (pre ++ [(s, a1, l1)] ++ mid ++ [(s, a2, l2)] ++ post)
          z w junk)
        (pre ++ [(s, a1, l1)] ++ mid ++ [(s, a2, l2)] ++ post) []).lookup s =
      some (pySlice
        (wrapArchive e (pre ++ [(s, a1, l1)] ++ mid ++ [(s, a2, l2)] ++ post)
          z w junk) a2 (a2 + l2)) := by
  have hdrop : (wrapArchive e
      (pre ++ [(s, a1, l1)] ++ mid ++ [(s, a2, l2)] ++ post) z w junk).drop 10 =
      (((pre ++ [(s, a1, l1)] ++ mid ++ [(s, a2, l2)] ++ post).map
        (encRec e)).flatten) ++ encRec e (0, z, w) ++ junk := by
    rw [wrapArchive, drop10_magic]
    simp [List.append_assoc]
  have hscan := scanChunks_records e
    (wrapArchive e (pre ++ [(s, a1, l1)] ++ mid ++ [(s, a2, l2)] ++ post) z w
      junk)
    (pre ++ [(s, a1, l1)] ++ mid ++ [(s, a2, l2)] ++ post) SCAN_FUEL 10 [] z w
    junk hdrop hcount hwf hz hw
  refine ⟨hscan, ?_⟩
  have h1 : lastSlot post s = none := lastSlot_none post s hpost
  have h2 : lastSlot [(s, a2, l2)] s = some (a2, l2) := by simp [lastSlot]
  have h3 : lastSlot (pre ++ [(s, a1, l1)] ++ mid ++ [(s, a2, l2)] ++ post) s =
      some (a2, l2) := by
    rw [lastSlot_append _ post, h1, lastSlot_append _ [(s, a2, l2)], h2]
  have hl := lookup_chunksOf
    (wrapArchive e (pre ++ [(s, a1, l1)] ++ mid ++ [(s, a2, l2)] ++ post) z w
      junk)
    (pre ++ [(s, a1, l1)] ++ mid ++ [(s, a2, l2)] ++ post) [] s
  rw [h3] at hl
  exact hl

/-- Witness for C10: two records for slot 1, `(1, 0, 1)` then `(1, 1, 2)`;
the map holds the second record's range. -/
theorem duplicate_slot_last_record_wins_witness :
    scanChunks .little
        (wrapArchive .little ([] ++ [(1, 0, 1)] ++ [] ++ [(1, 1, 2)] ++ [])
          0 0 []) SCAN_FUEL 10 [] =
      .ok (chunksOf
        (wrapArchive .little ([] ++ [(1, 0, 1)] ++ [] ++ [(1, 1, 2)] ++ [])
          0 0 [])
        ([] ++ [(1, 0, 1)] ++ [] ++ [(1, 1, 2)] ++ []) []) ∧
    (chunksOf
        (wrapArchive .little ([] ++ [(1, 0, 1)] ++ [] ++ [(1, 1, 2)] ++ [])
          0 0 [])
        ([] ++ [(1, 0, 1)] ++ [] ++ [(1, 1, 2)] ++ []) []).lookup 1 =
      some (pySlice
        (wrapArchive .little ([] ++ [(1, 0, 1)] ++ [] ++ [(1, 1, 2)] ++ [])
          0 0 []) 1 (1 + 2)) :=
  duplicate_slot_last_record_wins .little [] [] [] 1 0 1 1 2 0 0 []
    (by decide) (by norm_num [SCAN_FUEL]) (by norm_num) (by norm_num)
    (by simp)

end Derenpy
